import Mathlib

/-!
# Verification of the Window-Manager-App core against its specification

Shallow embedding of the hotkey-driven window-geometry engine of
`src/main.py`: the rectangle model and intersection test, the
scaled-resize geometry computation, the two-step timed minimize
sequence, the hotkey registry rebuild, the settings-load hotkey-string
normalization, and the custom-action dialog validation.

Conventions of the embedding:
* machine integers and screen coordinates are `Int` (Python ints are
  unbounded, so no modular wrap is needed);
* `time.time()` values and `float` scale factors are modelled as `ℚ`
  (the code only multiplies, subtracts and compares them);
* Python strings are Lean `String`s, or `List Char` where we recurse
  over characters;
* Python `int(x)` truncation toward zero is `intTrunc`, Python `//`
  floor division on `Int` is `Int.fdiv`.
-/

namespace WindowManager

/-- `RECT` from src/main.py lines 22-34: a rectangle given by its
left, top, right and bottom coordinates. -/
structure RECT where
  left : Int
  top : Int
  right : Int
  bottom : Int
deriving DecidableEq, Repr

/-- `rects_intersect` from src/main.py lines 36-38:
`not (a.left >= b.right or a.right <= b.left or a.top >= b.bottom or a.bottom <= b.top)`. -/
def rects_intersect (a b : RECT) : Bool :=
  !(decide (a.left ≥ b.right) || decide (a.right ≤ b.left) ||
    decide (a.top ≥ b.bottom) || decide (a.bottom ≤ b.top))

/-- The minimize-sequence state from src/main.py lines 72-73:
`minimize_sequence_started` flag and `minimize_sequence_start_time`
timestamp (a `time.time()` value, modelled as `ℚ`). -/
structure SeqState where
  minimize_sequence_started : Bool
  minimize_sequence_start_time : ℚ
deriving DecidableEq

/-- `_start_minimize_sequence` from src/main.py lines 411-415: sets the
started flag and records the current time; the previous state is
overwritten unconditionally. -/
def start_minimize_sequence (now : ℚ) (_s : SeqState) : SeqState :=
  { minimize_sequence_started := true, minimize_sequence_start_time := now }

/-- `_complete_minimize_sequence` from src/main.py lines 417-428: returns
whether the batch minimize fires (`started` and elapsed time at most 2
seconds) together with the successor state, whose started flag is
cleared unconditionally at the end of the handler. -/
def complete_minimize_sequence (now : ℚ) (s : SeqState) : Bool × SeqState :=
  let fires := s.minimize_sequence_started &&
    decide (now - s.minimize_sequence_start_time ≤ 2)
  (fires, { minimize_sequence_started := false,
            minimize_sequence_start_time := s.minimize_sequence_start_time })

/-- C1: the arm trigger moves any state to Armed with the current time as
the armed timestamp; the fire trigger performs the batch minimize iff the
state is armed and the elapsed time since arming is at most 2.0 seconds;
and after every fire trigger the state is no longer armed. -/
theorem C1_minimize_sequence_state_machine :
    ∀ (now t : ℚ) (s : SeqState),
      start_minimize_sequence now s =
        { minimize_sequence_started := true, minimize_sequence_start_time := now } ∧
      ((complete_minimize_sequence t s).1 = true ↔
        s.minimize_sequence_started = true ∧ t - s.minimize_sequence_start_time ≤ 2) ∧
      (complete_minimize_sequence t s).2.minimize_sequence_started = false := by
  intro now t s
  refine ⟨rfl, ?_, rfl⟩
  simp [complete_minimize_sequence]

/-- C4: the intersection test is exactly the open-interval test, and the
edge-touching pair (0,0,100,100), (100,0,200,100) does not intersect. -/
theorem C4_rects_intersect_open_interval :
    (∀ a b : RECT, rects_intersect a b = true ↔
      ¬(a.left ≥ b.right ∨ a.right ≤ b.left ∨ a.top ≥ b.bottom ∨ a.bottom ≤ b.top)) ∧
    rects_intersect ⟨0, 0, 100, 100⟩ ⟨100, 0, 200, 100⟩ = false := by
  constructor
  · intro a b
    simp [rects_intersect, not_or, and_assoc]
  · decide

/-- C9 counterexample: the zero-width rectangle (50,0,50,100) is degenerate
(left = right), yet `rects_intersect` reports that it intersects
(0,0,100,100) — so a degenerate rectangle does not always fail the test. -/
theorem C9_counterexample :
    (RECT.mk 50 0 50 100).left = (RECT.mk 50 0 50 100).right ∧
    rects_intersect ⟨50, 0, 50, 100⟩ ⟨0, 0, 100, 100⟩ = true := by
  decide

/-- C9 (amended): a degenerate rectangle (zero width or zero height) never
intersects itself under `rects_intersect`. -/
theorem C9_degenerate_rect_no_self_intersection :
    ∀ a : RECT, (a.left = a.right ∨ a.top = a.bottom) →
      rects_intersect a a = false := by
  intro a h
  rcases h with h | h <;> simp [rects_intersect, h]

/-- C9 witness: the amended theorem applied to the degenerate rectangle
(50,0,50,100). -/
theorem C9_degenerate_rect_no_self_intersection_witness :
    ((RECT.mk 50 0 50 100).left = (RECT.mk 50 0 50 100).right ∨
      (RECT.mk 50 0 50 100).top = (RECT.mk 50 0 50 100).bottom) ∧
    rects_intersect ⟨50, 0, 50, 100⟩ ⟨50, 0, 50, 100⟩ = false :=
  ⟨by decide, C9_degenerate_rect_no_self_intersection ⟨50, 0, 50, 100⟩ (by decide)⟩

/-- Python `int(x)` conversion on a float/rational: truncation toward
zero (ceiling for negative arguments, floor otherwise). -/
def intTrunc (q : ℚ) : Int := if q < 0 then ⌈q⌉ else ⌊q⌋

/-- `width = int((work_area[2] - work_area[0]) * scale)` from
src/main.py line 244. -/
def scaled_width (wa : RECT) (scale : ℚ) : Int :=
  intTrunc (((wa.right - wa.left : Int) : ℚ) * scale)

/-- `height = int((work_area[3] - work_area[1]) * scale)` from
src/main.py line 245. -/
def scaled_height (wa : RECT) (scale : ℚ) : Int :=
  intTrunc (((wa.bottom - wa.top : Int) : ℚ) * scale)

/-- `left = work_area[0] + ((work_area[2] - work_area[0]) - width) // 2`
from src/main.py line 246 (`//` is Python floor division, `Int.fdiv`). -/
def resize_left (wa : RECT) (scale : ℚ) : Int :=
  wa.left + (wa.right - wa.left - scaled_width wa scale).fdiv 2

/-- `top = work_area[1] + ((work_area[3] - work_area[1]) - height) // 2`
from src/main.py line 247. -/
def resize_top (wa : RECT) (scale : ℚ) : Int :=
  wa.top + (wa.bottom - wa.top - scaled_height wa scale).fdiv 2

/-- The target rectangle passed to `SetWindowPos` by `_resize_window`
(src/main.py lines 240-250): position `(left, top)` with size
`(width, height)`, i.e. the rectangle
`(left, top, left + width, top + height)`. -/
def resize_window (wa : RECT) (scale : ℚ) : RECT :=
  ⟨resize_left wa scale, resize_top wa scale,
   resize_left wa scale + scaled_width wa scale,
   resize_top wa scale + scaled_height wa scale⟩

theorem intTrunc_of_nonneg {q : ℚ} (h : 0 ≤ q) : intTrunc q = ⌊q⌋ :=
  if_neg (not_lt.mpr h)

/-- For a nonnegative extent `w` and a scale in (0, 1], the truncated
scaled extent lies between 0 and `w`. -/
theorem scaled_dim_bounds {w : Int} {s : ℚ} (hw : 0 ≤ w) (hs0 : 0 < s)
    (hs1 : s ≤ 1) : 0 ≤ intTrunc ((w : ℚ) * s) ∧ intTrunc ((w : ℚ) * s) ≤ w := by
  have hwq : (0 : ℚ) ≤ (w : ℚ) := by exact_mod_cast hw
  have hq : 0 ≤ (w : ℚ) * s := mul_nonneg hwq hs0.le
  rw [intTrunc_of_nonneg hq]
  refine ⟨Int.le_floor.mpr (by exact_mod_cast hq), ?_⟩
  have hle : (w : ℚ) * s ≤ (w : ℚ) := mul_le_of_le_one_right hwq hs1
  calc ⌊(w : ℚ) * s⌋ ≤ ⌊((w : Int) : ℚ)⌋ := Int.floor_le_floor hle
    _ = w := Int.floor_intCast w

/-- C2: for every work area with right ≥ left and bottom ≥ top and every
scale in (0, 1], the rectangle computed by `_resize_window` is contained
in the work area and centered within 1 unit in each dimension. -/
theorem C2_resize_window_contained_and_centered :
    ∀ (wa : RECT) (s : ℚ), wa.left ≤ wa.right → wa.top ≤ wa.bottom →
      0 < s → s ≤ 1 →
      (wa.left ≤ (resize_window wa s).left ∧
       (resize_window wa s).right ≤ wa.right ∧
       wa.top ≤ (resize_window wa s).top ∧
       (resize_window wa s).bottom ≤ wa.bottom) ∧
      |((resize_window wa s).left - wa.left) -
        (wa.right - (resize_window wa s).right)| ≤ 1 ∧
      |((resize_window wa s).top - wa.top) -
        (wa.bottom - (resize_window wa s).bottom)| ≤ 1 := by
  intro wa s h1 h2 hs0 hs1
  obtain ⟨hw0, hw1⟩ := scaled_dim_bounds (sub_nonneg.mpr h1) hs0 hs1 (w := wa.right - wa.left)
  obtain ⟨hh0, hh1⟩ := scaled_dim_bounds (sub_nonneg.mpr h2) hs0 hs1 (w := wa.bottom - wa.top)
  have ew : scaled_width wa s = intTrunc (((wa.right - wa.left : Int) : ℚ) * s) := rfl
  have eh : scaled_height wa s = intTrunc (((wa.bottom - wa.top : Int) : ℚ) * s) := rfl
  simp only [resize_window, resize_left, resize_top, ← ew, ← eh]
  rw [Int.fdiv_eq_ediv _ (by norm_num), Int.fdiv_eq_ediv _ (by norm_num)]
  rw [← ew] at hw0 hw1
  rw [← eh] at hh0 hh1
  refine ⟨⟨?_, ?_, ?_, ?_⟩, ?_, ?_⟩ <;>
    [skip; skip; skip; skip; rw [abs_le]; rw [abs_le]] <;> omega

/-- C2 witness: the theorem instantiated at the work area (0, 0, 101, 51)
with scale 1. -/
theorem C2_resize_window_contained_and_centered_witness :
    ((0 : Int) ≤ 101 ∧ (0 : Int) ≤ 51 ∧ (0 : ℚ) < 1 ∧ (1 : ℚ) ≤ 1) ∧
    ((RECT.mk 0 0 101 51).left ≤ (resize_window ⟨0, 0, 101, 51⟩ 1).left ∧
     (resize_window ⟨0, 0, 101, 51⟩ 1).right ≤ (RECT.mk 0 0 101 51).right ∧
     (RECT.mk 0 0 101 51).top ≤ (resize_window ⟨0, 0, 101, 51⟩ 1).top ∧
     (resize_window ⟨0, 0, 101, 51⟩ 1).bottom ≤ (RECT.mk 0 0 101 51).bottom) ∧
    |((resize_window ⟨0, 0, 101, 51⟩ 1).left - (RECT.mk 0 0 101 51).left) -
      ((RECT.mk 0 0 101 51).right - (resize_window ⟨0, 0, 101, 51⟩ 1).right)| ≤ 1 ∧
    |((resize_window ⟨0, 0, 101, 51⟩ 1).top - (RECT.mk 0 0 101 51).top) -
      ((RECT.mk 0 0 101 51).bottom - (resize_window ⟨0, 0, 101, 51⟩ 1).bottom)| ≤ 1 :=
  ⟨⟨by norm_num, by norm_num, by norm_num, by norm_num⟩,
    C2_resize_window_contained_and_centered ⟨0, 0, 101, 51⟩ 1
      (by norm_num) (by norm_num) (by norm_num) (by norm_num)⟩

/-- One step of Python `hotkey.replace(symbol, name)` for a single-character
`symbol`: every occurrence of the character `c` in the string is replaced
by the string `name` (for single-character patterns Python's `str.replace`
is exactly this character-wise substitution). -/
def replaceChar (c : Char) (name : List Char) : List Char → List Char
  | [] => []
  | x :: xs => (if x = c then name else [x]) ++ replaceChar c name xs

/-- The `hotkey_replacements` table from src/main.py lines 377-390, in
source (dict-insertion) order. The apostrophe and grave (backtick)
characters are written as `Char.ofNat 39` and `Char.ofNat 96`. -/
def hotkey_replacements : List (Char × List Char) :=
  [(',', "comma".toList),
   ('.', "period".toList),
   ('/', "slash".toList),
   ('\\', "backslash".toList),
   (';', "semicolon".toList),
   (Char.ofNat 39, "apostrophe".toList),
   ('-', "minus".toList),
   ('=', "equal".toList),
   (Char.ofNat 96, "grave".toList),
   ('[', "left bracket".toList),
   (']', "right bracket".toList),
   (' ', "space".toList)]

/-- One iteration of the replacement loop of src/main.py lines 395-396:
`hotkey = hotkey.replace(symbol, name)`. -/
def apply_replacement_step (acc : List Char) (p : Char × List Char) : List Char :=
  replaceChar p.1 p.2 acc

/-- The full special-character normalization applied to each hotkey string
in `_load_settings` (src/main.py lines 392-398 and 403-409): the twelve
replacements applied sequentially in table order. -/
def apply_replacements (l : List Char) : List Char :=
  hotkey_replacements.foldl apply_replacement_step l

/-- Every character of `replaceChar c name l` comes either from `name` or
is a character of `l` different from `c`. -/
theorem mem_replaceChar {x c : Char} {name l : List Char}
    (h : x ∈ replaceChar c name l) : x ∈ name ∨ (x ∈ l ∧ x ≠ c) := by
  induction l with
  | nil => simp [replaceChar] at h
  | cons y ys ih =>
    simp only [replaceChar, List.mem_append] at h
    rcases h with h | h
    · by_cases hy : y = c
      · rw [if_pos hy] at h
        exact Or.inl h
      · rw [if_neg hy] at h
        simp only [List.mem_singleton] at h
        subst h
        exact Or.inr ⟨List.mem_cons_self _ _, hy⟩
    · rcases ih h with h | ⟨h1, h2⟩
      · exact Or.inl h
      · exact Or.inr ⟨List.mem_cons_of_mem _ h1, h2⟩

/-- A character that is not in the replacement text, and is either the
replaced character itself or absent from the input, is absent from the
output of `replaceChar`. -/
theorem not_mem_replaceChar {x c : Char} {name l : List Char}
    (hname : x ∉ name) (h : x = c ∨ x ∉ l) : x ∉ replaceChar c name l := by
  intro hmem
  rcases mem_replaceChar hmem with hn | ⟨hl, hne⟩
  · exact hname hn
  · rcases h with h | h
    · exact hne h
    · exact h hl

/-- Replacing a character that does not occur leaves the string unchanged. -/
theorem replaceChar_eq_self {c : Char} {name l : List Char} (h : c ∉ l) :
    replaceChar c name l = l := by
  induction l with
  | nil => rfl
  | cons y ys ih =>
    have hy : ¬(y = c) := fun e => h (e ▸ List.mem_cons_self _ _)
    simp only [replaceChar, if_neg hy, List.cons_append, List.nil_append,
      List.cons.injEq, true_and]
    exact ih (fun hm => h (List.mem_cons_of_mem _ hm))

/-- A character absent from the input and from every replacement text of a
table stays absent through the whole replacement fold. -/
theorem not_mem_foldl_replacements {x : Char}
    (ts : List (Char × List Char)) (l : List Char)
    (hn : ∀ p ∈ ts, x ∉ p.2) (hl : x ∉ l) :
    x ∉ ts.foldl apply_replacement_step l := by
  induction ts generalizing l with
  | nil => exact hl
  | cons p ps ih =>
    exact ih _ (fun q hq => hn q (List.mem_cons_of_mem _ hq))
      (not_mem_replaceChar (hn p (List.mem_cons_self _ _)) (Or.inr hl))

/-- Well-formedness of a replacement table: each replaced character does
not occur in its own replacement text nor in any later replacement text. -/
def goodTableB : List (Char × List Char) → Bool
  | [] => true
  | (c, name) :: rest =>
      decide (c ∉ name) && rest.all (fun p => decide (c ∉ p.2)) && goodTableB rest

/-- Over a well-formed table, no replaced character survives the full
replacement fold, whatever the input string. -/
theorem not_mem_foldl_of_goodTable {x : Char}
    (ts : List (Char × List Char)) (hg : goodTableB ts = true)
    (hx : x ∈ ts.map Prod.fst) (l : List Char) :
    x ∉ ts.foldl apply_replacement_step l := by
  induction ts generalizing l with
  | nil => simp at hx
  | cons p ps ih =>
    obtain ⟨c, name⟩ := p
    simp only [goodTableB, Bool.and_eq_true, decide_eq_true_eq,
      List.all_eq_true] at hg
    obtain ⟨⟨hcn, hrest⟩, hps⟩ := hg
    simp only [List.map_cons, List.mem_cons] at hx
    rcases hx with rfl | hx
    · exact not_mem_foldl_replacements ps _
        (fun q hq => hrest q hq)
        (not_mem_replaceChar hcn (Or.inl rfl))
    · exact ih hps hx _

/-- Folding a replacement table over a string in which none of the
replaced characters occur is the identity. -/
theorem foldl_replacements_eq_self (ts : List (Char × List Char))
    (l : List Char) (h : ∀ p ∈ ts, p.1 ∉ l) :
    ts.foldl apply_replacement_step l = l := by
  induction ts with
  | nil => rfl
  | cons p ps ih =>
    have e : apply_replacement_step l p = l :=
      replaceChar_eq_self (h p (List.mem_cons_self _ _))
    simp only [List.foldl_cons, e]
    exact ih (fun q hq => h q (List.mem_cons_of_mem _ hq))

/-- C3: the special-character normalization applied to hotkey strings on
settings load is stable under repeated application: normalizing twice
yields the same string as normalizing once. -/
theorem C3_hotkey_normalization_idempotent :
    ∀ l : List Char, apply_replacements (apply_replacements l) = apply_replacements l := by
  intro l
  have h : ∀ p ∈ hotkey_replacements, p.1 ∉ apply_replacements l := by
    intro p hp
    exact not_mem_foldl_of_goodTable hotkey_replacements (by decide)
      (List.mem_map_of_mem Prod.fst hp) l
  exact foldl_replacements_eq_self hotkey_replacements (apply_replacements l) h

/-- Python whitespace characters recognised by `str.strip()` (ASCII range:
space, tab, newline, carriage return, vertical tab `\x0b`, form feed
`\x0c`). -/
def pySpace (c : Char) : Bool :=
  c == ' ' || c == '\t' || c == '\n' || c == '\r' ||
  c == Char.ofNat 11 || c == Char.ofNat 12

/-- Python `s.strip()`: drop leading and trailing whitespace. -/
def pyStrip (l : List Char) : List Char :=
  ((l.dropWhile pySpace).reverse.dropWhile pySpace).reverse

/-- The actions bound to hotkeys by `_register_hotkeys`
(src/main.py lines 161-185): the four predefined actions, the custom
resize closures created by `_create_resize_function` (identified by their
percentage), and the two minimize-sequence handlers. -/
inductive HotkeyAction where
  | resize_to_80
  | fullscreen
  | center_window
  | resize_to_60
  | custom_resize (percentage : ℚ)
  | start_seq
  | complete_seq
deriving DecidableEq

/-- The observable hotkey binding map `self.hotkeys` (src/main.py line 70):
an insertion-ordered dictionary from hotkey strings to actions, modelled
as an association list without duplicate keys. -/
abbrev Registry := List (String × HotkeyAction)

/-- Python dict assignment `self.hotkeys[hotkey] = action`: replace the
value at an existing key in place, otherwise append the new pair. -/
def dictInsert (k : String) (v : HotkeyAction) : Registry → Registry
  | [] => [(k, v)]
  | p :: rest => if p.1 = k then (k, v) :: rest else p :: dictInsert k v rest

/-- Python dict lookup `self.hotkeys.get(k)`. -/
def dictLookup (k : String) : Registry → Option HotkeyAction
  | [] => none
  | p :: rest => if p.1 = k then some p.2 else dictLookup k rest

/-- `_register_hotkey` from src/main.py lines 187-198: a no-op (apart from
a warning log) when the hotkey string strips to empty, otherwise the
binding is recorded. The external `keyboard.add_hotkey` call is modelled
as succeeding; on the Python side a `ValueError` would leave the map
unchanged for that entry only. -/
def register_hotkey (hotkey : String) (action : HotkeyAction) (st : Registry) : Registry :=
  if pyStrip hotkey.toList = [] then st else dictInsert hotkey action st

/-- `_unregister_hotkey` from src/main.py lines 205-212: remove the binding
for `hotkey` if present; unknown ids are silently ignored. -/
def unregister_hotkey (hotkey : String) (st : Registry) : Registry :=
  st.filter (fun p => decide (p.1 ≠ hotkey))

/-- `_unregister_all_hotkeys` from src/main.py lines 214-217: iterate over a
snapshot of the current keys and unregister each one. -/
def unregister_all_hotkeys (st : Registry) : Registry :=
  (st.map Prod.fst).foldl (fun acc k => unregister_hotkey k acc) st

/-- The configuration read by `_register_hotkeys`: the four shortcut entry
strings and the custom actions (percentage, hotkey) from the tree view. -/
structure Config where
  resize_80 : String
  fullscreen : String
  center : String
  resize_60 : String
  custom_actions : List (ℚ × String)

/-- `_register_hotkeys` from src/main.py lines 161-185: unregister every
current binding, then register the four predefined bindings, the custom
resize bindings in list order, and finally the two hardcoded
minimize-sequence bindings. -/
def register_hotkeys (cfg : Config) (st : Registry) : Registry :=
  register_hotkey "ctrl+shift+m" HotkeyAction.complete_seq
    (register_hotkey "ctrl+shift+h" HotkeyAction.start_seq
      (cfg.custom_actions.foldl
        (fun acc pa => register_hotkey pa.2 (HotkeyAction.custom_resize pa.1) acc)
        (register_hotkey cfg.resize_60 HotkeyAction.resize_to_60
          (register_hotkey cfg.center HotkeyAction.center_window
            (register_hotkey cfg.fullscreen HotkeyAction.fullscreen
              (register_hotkey cfg.resize_80 HotkeyAction.resize_to_80
                (unregister_all_hotkeys st)))))))

/-- Folding `unregister_hotkey` over a list of keys filters out every pair
whose key occurs in the list. -/
theorem unregister_foldl_filter (keys : List String) :
    ∀ st : Registry,
      keys.foldl (fun acc k => unregister_hotkey k acc) st =
        st.filter (fun p => decide (p.1 ∉ keys)) := by
  induction keys with
  | nil =>
    intro st
    simp
  | cons k ks ih =>
    intro st
    simp only [List.foldl_cons]
    rw [ih, unregister_hotkey, List.filter_filter]
    apply List.filter_congr
    intro p _
    simp [List.mem_cons, not_or, Bool.and_comm]

/-- Unregistering every currently-held key empties the registry. -/
theorem unregister_all_eq_nil (st : Registry) : unregister_all_hotkeys st = [] := by
  rw [unregister_all_hotkeys, unregister_foldl_filter, List.filter_eq_nil_iff]
  intro p hp
  simp [List.mem_map_of_mem Prod.fst hp]

/-- The rebuilt registry does not depend on the registry it started from. -/
theorem register_hotkeys_st_independent (cfg : Config) (st st' : Registry) :
    register_hotkeys cfg st = register_hotkeys cfg st' := by
  simp only [register_hotkeys, unregister_all_eq_nil]

/-- C6: the full hotkey rebuild is idempotent — rebuilding twice over the
same configuration leaves the binding map identical to rebuilding once. -/
theorem C6_register_hotkeys_idempotent :
    ∀ (cfg : Config) (st : Registry),
      register_hotkeys cfg (register_hotkeys cfg st) = register_hotkeys cfg st :=
  fun cfg st => register_hotkeys_st_independent cfg (register_hotkeys cfg st) st

/-- A string all of whose characters are whitespace strips to empty. -/
theorem pyStrip_eq_nil_of_all_space {l : List Char}
    (h : ∀ c ∈ l, pySpace c = true) : pyStrip l = [] := by
  rw [pyStrip, List.dropWhile_eq_nil_iff.mpr h]
  rfl

/-- C7: registering an empty or whitespace-only hotkey identifier leaves
the binding map unchanged. -/
theorem C7_register_blank_hotkey_noop :
    ∀ (hotkey : String) (action : HotkeyAction) (st : Registry),
      (∀ c ∈ hotkey.toList, pySpace c = true) →
      register_hotkey hotkey action st = st := by
  intro hotkey action st h
  rw [register_hotkey, if_pos (pyStrip_eq_nil_of_all_space h)]

/-- C7 witness: registering the one-space hotkey string on the empty
registry returns the empty registry. -/
theorem C7_register_blank_hotkey_noop_witness :
    (∀ c ∈ (" " : String).toList, pySpace c = true) ∧
    register_hotkey " " HotkeyAction.fullscreen [] = [] :=
  ⟨by decide, C7_register_blank_hotkey_noop " " HotkeyAction.fullscreen [] (by decide)⟩

/-- Looking up a key right after inserting it returns the inserted value. -/
theorem dictLookup_dictInsert_self (k : String) (v : HotkeyAction) :
    ∀ st : Registry, dictLookup k (dictInsert k v st) = some v := by
  intro st
  induction st with
  | nil => simp [dictInsert, dictLookup]
  | cons p rest ih =>
    by_cases h : p.1 = k
    · simp [dictInsert, h, dictLookup]
    · simp [dictInsert, h, dictLookup, ih]

/-- Inserting under one key does not change the lookup of another key. -/
theorem dictLookup_dictInsert_ne {k' k : String} (h : k' ≠ k)
    (v : HotkeyAction) :
    ∀ st : Registry, dictLookup k' (dictInsert k v st) = dictLookup k' st := by
  intro st
  induction st with
  | nil =>
    simp only [dictInsert, dictLookup]
    rw [if_neg (Ne.symm h)]
  | cons p rest ih =>
    by_cases hp : p.1 = k
    · simp only [dictInsert, if_pos hp, dictLookup]
      rw [if_neg (Ne.symm h), if_neg (fun e => (Ne.symm h) (hp.symm.trans e))]
    · simp only [dictInsert, if_neg hp, dictLookup]
      by_cases hq : p.1 = k'
      · simp [hq]
      · simp [hq, ih]

/-- C10: after every rebuild, whatever the configuration and prior state,
the binding map binds "ctrl+shift+h" to the arm action and "ctrl+shift+m"
to the fire action — the two sequence triggers are hardcoded and cannot be
overridden by configuration. -/
theorem C10_sequence_hotkeys_always_bound :
    ∀ (cfg : Config) (st : Registry),
      dictLookup "ctrl+shift+h" (register_hotkeys cfg st) =
        some HotkeyAction.start_seq ∧
      dictLookup "ctrl+shift+m" (register_hotkeys cfg st) =
        some HotkeyAction.complete_seq := by
  intro cfg st
  have e1 : ∀ (a : HotkeyAction) (s : Registry),
      register_hotkey "ctrl+shift+h" a s = dictInsert "ctrl+shift+h" a s := by
    intro a s
    rw [register_hotkey, if_neg (by decide)]
  have e2 : ∀ (a : HotkeyAction) (s : Registry),
      register_hotkey "ctrl+shift+m" a s = dictInsert "ctrl+shift+m" a s := by
    intro a s
    rw [register_hotkey, if_neg (by decide)]
  rw [register_hotkeys, e2, e1]
  constructor
  · rw [dictLookup_dictInsert_ne (by decide), dictLookup_dictInsert_self]
  · rw [dictLookup_dictInsert_self]

/-- A top-level window as seen by the `EnumWindows` callback of
`_minimize_all_windows_on_current_desktop` (src/main.py lines 436-442):
its handle, its `IsWindowVisible` status, and its `GetWindowRect`
bounding rectangle. -/
structure WindowInfo where
  hwnd : Int
  visible : Bool
  rect : RECT
deriving DecidableEq

/-- `MonitorInfo` from src/main.py lines 45-48: the monitor's full bounds
rectangle, its work-area rectangle, and its flags. -/
structure MonitorInfo where
  Monitor : RECT
  Work : RECT
  Flags : Int
deriving DecidableEq

/-- `enum_handler` from src/main.py lines 436-442: skip windows that are
not visible or are the application's own window; minimize a remaining
window iff its rectangle intersects the monitor rectangle. The
accumulator collects the windows that receive a minimize instruction. -/
def enum_handler (self_hwnd : Int) (monitor_rect : RECT)
    (minimized : List WindowInfo) (w : WindowInfo) : List WindowInfo :=
  if w.visible = false ∨ w.hwnd = self_hwnd then minimized
  else if rects_intersect w.rect monitor_rect = true then minimized ++ [w]
  else minimized

/-- `_minimize_all_windows_on_current_desktop` from src/main.py lines
430-445: enumerate the top-level windows and apply the handler to each,
against the full `Monitor` bounds rectangle (not the work area) of the
monitor under the cursor. Returns the windows that are minimized, in
enumeration order. -/
def minimize_all_windows_on_current_desktop (self_hwnd : Int)
    (monitor_info : MonitorInfo) (windows : List WindowInfo) : List WindowInfo :=
  windows.foldl (enum_handler self_hwnd monitor_info.Monitor) []

/-- The enumeration fold collects exactly the windows passing the
visibility, self-exclusion and intersection conditions, behind the
initial accumulator. -/
theorem foldl_enum_handler (self_hwnd : Int) (mrect : RECT) :
    ∀ (ws acc : List WindowInfo),
      ws.foldl (enum_handler self_hwnd mrect) acc =
        acc ++ ws.filter (fun w =>
          w.visible && decide (w.hwnd ≠ self_hwnd) &&
          rects_intersect w.rect mrect) := by
  intro ws
  induction ws with
  | nil =>
    intro acc
    simp
  | cons w ws ih =>
    intro acc
    by_cases hv : w.visible = true <;> by_cases hh : w.hwnd = self_hwnd <;>
      by_cases hr : rects_intersect w.rect mrect = true <;>
      simp [enum_handler, hv, hh, hr, ih, List.filter_cons]

/-- C5: a window receives a minimize instruction iff it is enumerated,
visible, not the application's own window, and its rectangle intersects
the monitor's full bounds rectangle under the open-interval test. -/
theorem C5_minimize_all_condition :
    ∀ (self_hwnd : Int) (mi : MonitorInfo) (ws : List WindowInfo) (w : WindowInfo),
      w ∈ minimize_all_windows_on_current_desktop self_hwnd mi ws ↔
        w ∈ ws ∧ w.visible = true ∧ w.hwnd ≠ self_hwnd ∧
          rects_intersect w.rect mi.Monitor = true := by
  intro s mi ws w
  rw [minimize_all_windows_on_current_desktop, foldl_enum_handler]
  simp [List.mem_filter, and_assoc]

/-- Python `str.isdigit()` restricted to ASCII digits: true iff the string
is nonempty and all characters are in `0`..`9`. -/
def pyIsDigit (s : List Char) : Bool :=
  !s.isEmpty && s.all (fun c => decide ('0' ≤ c) && decide (c ≤ '9'))

/-- `CustomActionDialog.on_ok` from src/main.py lines 478-487: the dialog
result is set to the (percentage, hotkey) pair iff
`percentage.isdigit()` holds and `hotkey.strip()` is nonempty; otherwise
an error box is shown and no result is produced. -/
def on_ok (percentage hotkey : String) : Option (String × String) :=
  if pyIsDigit percentage.toList = false ∨ pyStrip hotkey.toList = [] then none
  else some (percentage, hotkey)

/-- The numeric value denoted by a digit string (base 10). -/
def digitsToNat (s : List Char) : Nat :=
  s.foldl (fun n c => 10 * n + (c.toNat - Char.toNat '0')) 0

/-- C8 counterexample: the percentage string "0" is accepted by the dialog
although it denotes 0, which is not a positive integer; "150" is also
accepted although 150 lies outside (0, 100]. -/
theorem C8_counterexample :
    on_ok "0" "ctrl+alt+5" = some ("0", "ctrl+alt+5") ∧
    digitsToNat ("0".toList) = 0 ∧
    on_ok "150" "ctrl+alt+6" = some ("150", "ctrl+alt+6") ∧
    digitsToNat ("150".toList) = 150 := by
  decide

/-- A string strips to empty iff every character is whitespace. -/
theorem pyStrip_eq_nil_iff (l : List Char) :
    pyStrip l = [] ↔ ∀ c ∈ l, pySpace c = true := by
  rw [pyStrip, List.reverse_eq_nil_iff, List.dropWhile_eq_nil_iff]
  constructor
  · intro h c hc
    have hc' : c ∈ l.takeWhile pySpace ++ l.dropWhile pySpace := by
      rw [List.takeWhile_append_dropWhile]
      exact hc
    rcases List.mem_append.mp hc' with h1 | h2
    · exact List.mem_takeWhile_imp h1
    · exact h c (List.mem_reverse.mpr h2)
  · intro h c hc
    exact h c ((List.dropWhile_sublist pySpace).subset (List.mem_reverse.mp hc))

/-- A string has a nonempty strip iff it has a non-whitespace character. -/
theorem pyStrip_ne_nil_iff (l : List Char) :
    ¬(pyStrip l = []) ↔ ∃ c ∈ l, pySpace c = false := by
  rw [pyStrip_eq_nil_iff]
  simp [Bool.not_eq_true]

/-- C8 (amended): the dialog accepts iff the percentage string is a
nonempty all-digit string (so any nonnegative integer, including 0 and
values above 100) and the hotkey string has a non-whitespace character. -/
theorem C8_on_ok_accepts_iff :
    ∀ p h : String, (on_ok p h).isSome = true ↔
      (p.toList ≠ [] ∧ ∀ c ∈ p.toList, ('0' ≤ c ∧ c ≤ '9')) ∧
      ∃ c ∈ h.toList, pySpace c = false := by
  intro p h
  have e : (on_ok p h).isSome = true ↔
      ¬(pyIsDigit p.toList = false ∨ pyStrip h.toList = []) := by
    rw [on_ok]
    by_cases hc : pyIsDigit p.toList = false ∨ pyStrip h.toList = []
    · simp [hc]
    · simp [hc]
  rw [e, not_or, pyStrip_ne_nil_iff]
  have ed : ¬(pyIsDigit p.toList = false) ↔
      (p.toList ≠ [] ∧ ∀ c ∈ p.toList, ('0' ≤ c ∧ c ≤ '9')) := by
    rw [Bool.not_eq_false]
    simp [pyIsDigit, List.all_eq_true, List.isEmpty_iff]
  rw [ed]

end WindowManager
